import Mathlib

/-!
Shallow embedding of the SWIPE invoice extraction backend
(`server/src/modules/extract.js` and `server/src/index.js`), written to check
the specification's claims about the normalization pipeline, the spreadsheet
column mapper, the external extraction adapter and the extract endpoint.
JavaScript numbers are modelled as rationals, a missing field (`undefined`)
as `Option.none`, and the JavaScript truthiness coercions used by the source
as explicit helper functions.
-/

namespace Swipe

/-- JavaScript `Number(x || 0)`: a missing numeric field coerces to `0`. -/
def numOr0 (o : Option ℚ) : ℚ := o.getD 0

/-- JavaScript `x || ''` on an optional string field (missing and `''` both
give `''`). -/
def strOrEmpty (o : Option String) : String :=
  match o with
  | some s => s
  | none => ""

/-- JavaScript `Number(x || d)` on an optional number: `undefined` and `0`
are falsy, any other number wins. -/
def jsOrNum (o : Option ℚ) (d : ℚ) : ℚ :=
  match o with
  | some v => if v = 0 then d else v
  | none => d

/-- JavaScript `x ? Number(x) : undefined` on an optional number. -/
def jsTruthyNum (o : Option ℚ) : Option ℚ :=
  match o with
  | some v => if v = 0 then none else some v
  | none => none

/-- JavaScript truthiness of an optional string (`undefined` and `''` are
falsy); used for the `it.productId || ...` read in `normalize`. -/
def jsTruthyStr (o : Option String) : Option String :=
  match o with
  | some s => if s = "" then none else some s
  | none => none

/-- Decides whether the character list given first occurs at the head of the
second list; building block for `strIncludes`. -/
def charsLeading : List Char → List Char → Bool
  | [], _ => true
  | _ :: _, [] => false
  | a :: as, b :: bs => a == b && charsLeading as bs

/-- Decides whether the character list given first occurs contiguously
anywhere inside the second list. -/
def charsWithin (pat : List Char) : List Char → Bool
  | [] => charsLeading pat []
  | c :: rest => charsLeading pat (c :: rest) || charsWithin pat rest

/-- JavaScript `s.includes(pat)`: substring containment on strings. -/
def strIncludes (s pat : String) : Bool := charsWithin pat.data s.data

/-- ASCII lowercase of one character (the names handled by the source are
ASCII; this mirrors `toLowerCase` on them). -/
def lowChar (c : Char) : Char :=
  if 65 ≤ c.toNat ∧ c.toNat ≤ 90 then Char.ofNat (c.toNat + 32) else c

/-- JavaScript `s.toLowerCase()` on ASCII strings. -/
def lowerStr (s : String) : String := ⟨s.data.map lowChar⟩

/-! ## Raw extraction fragments (input of `normalize`) -/

/-- RawProduct record as consumed by `normalize` (`extract.js`). -/
structure RawProduct where
  name : String
  unitPrice : Option ℚ
  taxRate : Option ℚ
  priceWithTax : Option ℚ
  quantity : Option ℚ
  discount : Option ℚ
deriving DecidableEq

/-- RawCustomer record as consumed by `normalize`. -/
structure RawCustomer where
  name : String
  phone : Option String
  totalPurchase : Option ℚ
deriving DecidableEq

/-- RawInvoiceItem record; `productId` models the `it.productId` field that
`normalize` reads before falling back to `addProduct`. -/
structure RawItem where
  productName : Option String
  qty : Option ℚ
  unitPrice : Option ℚ
  taxRate : Option ℚ
  productId : Option String
deriving DecidableEq

/-- RawInvoice record as consumed by `normalize`. -/
structure RawInvoice where
  serialNumber : Option String
  customerName : Option String
  date : Option String
  items : List RawItem
  tax : Option ℚ
  totalAmount : Option ℚ
deriving DecidableEq

/-- RawExtractionFragment: `{ products, customers, invoices }`. -/
structure RawFragment where
  products : List RawProduct
  customers : List RawCustomer
  invoices : List RawInvoice
deriving DecidableEq

/-- Empty fragment `{ products: [], customers: [], invoices: [] }`. -/
def emptyFragment : RawFragment := ⟨[], [], []⟩

/-! ## Canonical output entities (output of `normalize`) -/

/-- Canonical Product pushed by `addProduct`. -/
structure Product where
  id : String
  name : String
  unitPrice : ℚ
  taxRate : ℚ
  priceWithTax : ℚ
  quantity : Option ℚ
  discount : Option ℚ
deriving DecidableEq

/-- Canonical Customer pushed by `addCustomer`. -/
structure Customer where
  id : String
  name : String
  phone : String
  totalPurchase : ℚ
deriving DecidableEq

/-- Canonical InvoiceItem; `productId = none` models the JavaScript `null`
produced when neither a raw `productId` nor a product name is available. -/
structure InvoiceItem where
  productId : Option String
  qty : ℚ
  unitPrice : ℚ
  taxRate : ℚ
deriving DecidableEq

/-- Canonical Invoice built by the invoice loop of `normalize`. -/
structure Invoice where
  id : String
  serialNumber : String
  customerId : String
  items : List InvoiceItem
  tax : ℚ
  totalAmount : ℚ
  date : String
deriving DecidableEq

/-- Normalized result `{ products, customers, invoices }`. -/
structure NormResult where
  products : List Product
  customers : List Customer
  invoices : List Invoice
deriving DecidableEq

/-! ## The name registries of `normalize`

`normalize` keeps `productIdByName` / `customerIdByName` (JavaScript `Map`s)
next to the `products` / `customers` output arrays.  The `Map` is modelled
as an association list with the most recent insertion first; `Map.has` is a
key-membership test and `Map.get` is `List.lookup`. -/

/-- Registry pairing the name→id map with the output array it indexes. -/
structure Reg (β : Type) where
  idByName : List (String × String)
  entries : List β
deriving DecidableEq

/-- Shared body of `addProduct` and `addCustomer`: key the record by
lowercased name, return `null` on an empty key, register a fresh entity with
the next sequential synthetic id when the key is new, and return the mapped
id. -/
def addEntry (key : α → String) (pre : String) (mk : String → α → β)
    (st : Reg β) (r : α) : Option String × Reg β :=
  let k := key r
  if k = "" then (none, st)
  else if k ∈ st.idByName.map Prod.fst then (st.idByName.lookup k, st)
  else
    let id := pre ++ toString (st.entries.length + 1)
    (some id, ⟨(k, id) :: st.idByName, st.entries ++ [mk id r]⟩)

/-- Dedup key of a raw product: `(p.name||'').toLowerCase()` (no trim). -/
def prodKey (p : RawProduct) : String := lowerStr p.name

/-- Dedup key of a raw customer: `(c.name||'').toLowerCase()` (no trim). -/
def custKey (c : RawCustomer) : String := lowerStr c.name

/-- Product pushed by `addProduct` at first sight of a key. -/
def mkProductE (id : String) (p : RawProduct) : Product :=
  { id := id
    name := p.name
    unitPrice := numOr0 p.unitPrice
    taxRate := numOr0 p.taxRate
    priceWithTax := jsOrNum p.priceWithTax (numOr0 p.unitPrice * (1 + numOr0 p.taxRate))
    quantity := jsTruthyNum p.quantity
    discount := jsTruthyNum p.discount }

/-- Customer pushed by `addCustomer` at first sight of a key. -/
def mkCustomerE (id : String) (c : RawCustomer) : Customer :=
  { id := id
    name := c.name
    phone := strOrEmpty c.phone
    totalPurchase := numOr0 c.totalPurchase }

/-- `addProduct` closure of `normalize`. -/
def addProduct (st : Reg Product) (p : RawProduct) : Option String × Reg Product :=
  addEntry prodKey "prod_" mkProductE st p

/-- `addCustomer` closure of `normalize`. -/
def addCustomer (st : Reg Customer) (c : RawCustomer) : Option String × Reg Customer :=
  addEntry custKey "cust_" mkCustomerE st c

/-- Raw-product view of an invoice item, as passed to `addProduct` by the
item mapping in `normalize` (no `priceWithTax`, no `discount`). -/
def itemAsRawProduct (it : RawItem) : RawProduct :=
  { name := strOrEmpty it.productName
    unitPrice := it.unitPrice
    taxRate := it.taxRate
    priceWithTax := none
    quantity := it.qty
    discount := none }

/-- Item mapping of `normalize`: `it.productId || addProduct({...})` plus
`Number(x||0)` coercion of the numeric fields. -/
def processItem (ps : Reg Product) (it : RawItem) : InvoiceItem × Reg Product :=
  match jsTruthyStr it.productId with
  | some pid =>
    (⟨some pid, numOr0 it.qty, numOr0 it.unitPrice, numOr0 it.taxRate⟩, ps)
  | none =>
    let res := addProduct ps (itemAsRawProduct it)
    (⟨res.1, numOr0 it.qty, numOr0 it.unitPrice, numOr0 it.taxRate⟩, res.2)

/-- Sequential mapping of an invoice's items, threading the product registry. -/
def processItems (ps : Reg Product) : List RawItem → List InvoiceItem × Reg Product
  | [] => ([], ps)
  | it :: rest =>
    let a := processItem ps it
    let b := processItems a.2 rest
    (a.1 :: b.1, b.2)

/-- Subtotal reduce of `normalize`: sum of `unitPrice * qty`. -/
def itemsSubtotal (items : List InvoiceItem) : ℚ :=
  (items.map (fun it => it.unitPrice * it.qty)).sum

/-- Tax reduce of `normalize`: sum of `unitPrice * qty * taxRate`. -/
def itemsTax (items : List InvoiceItem) : ℚ :=
  (items.map (fun it => it.unitPrice * it.qty * it.taxRate)).sum

/-- Body of the per-invoice loop of `normalize`; `n` is the sequential
number used for the `inv_<n>` id. -/
def processInvoice (ps : Reg Product) (cs : Reg Customer) (n : Nat)
    (inv : RawInvoice) : Invoice × Reg Product × Reg Customer :=
  let ca := addCustomer cs ⟨strOrEmpty inv.customerName, none, none⟩
  let pi := processItems ps inv.items
  let subtotal := itemsSubtotal pi.1
  let tax := itemsTax pi.1
  ({ id := "inv_" ++ toString n
     serialNumber := strOrEmpty inv.serialNumber
     customerId := strOrEmpty ca.1
     items := pi.1
     tax := tax
     totalAmount := jsOrNum inv.totalAmount (subtotal + tax)
     date := strOrEmpty inv.date }, pi.2, ca.2)

/-- Invoice loop of `normalize`, threading both registries and the running
invoice number. -/
def processInvoices (ps : Reg Product) (cs : Reg Customer) (n : Nat) :
    List RawInvoice → List Invoice × Reg Product × Reg Customer
  | [] => ([], ps, cs)
  | inv :: rest =>
    let a := processInvoice ps cs n inv
    let b := processInvoices a.2.1 a.2.2 (n + 1) rest
    (a.1 :: b.1, b.2)

/-- Per-customer invoice total: the `totalsByCustomer` accumulation of
`normalize` (invoices with an empty `customerId` are skipped). -/
def custTotal (invs : List Invoice) (cid : String) : ℚ :=
  ((invs.filter (fun i => !(i.customerId == "") && i.customerId == cid)).map
    Invoice.totalAmount).sum

/-- Final recompute of `normalize`:
`c.totalPurchase = totalsByCustomer.get(c.id) || c.totalPurchase || 0`. -/
def recomputeCustomer (invs : List Invoice) (c : Customer) : Customer :=
  let s := custTotal invs c.id
  { c with totalPurchase := if s ≠ 0 then s else if c.totalPurchase ≠ 0 then c.totalPurchase else 0 }

/-- The `normalize` function of `extract.js`: seed the registries from the
fragment's products and customers, run the invoice loop, then recompute every
customer's `totalPurchase`. -/
def normalize (raw : RawFragment) : NormResult :=
  let ps1 := raw.products.foldl (fun s p => (addProduct s p).2) (⟨[], []⟩ : Reg Product)
  let cs1 := raw.customers.foldl (fun s c => (addCustomer s c).2) (⟨[], []⟩ : Reg Customer)
  let r := processInvoices ps1 cs1 1 raw.invoices
  { products := r.2.1.entries
    customers := r.2.2.entries.map (recomputeCustomer r.1)
    invoices := r.1 }

/-! ## Column mapper of `extractFromExcelBuffer` -/

/-- Header selection of `extractFromExcelBuffer`:
`header.find(h => keys.some(k => h.toLowerCase().includes(k)))`. -/
def pick (header : List String) (keys : List String) : Option String :=
  header.find? (fun h => keys.any (fun k => strIncludes (lowerStr h) k))

/-- Synonyms for the serial-number column. -/
def serialKeys : List String := ["serial", "invoice", "inv", "bill no", "bill", "sno", "sr no"]

/-- Synonyms for the customer column. -/
def custKeys : List String := ["customer", "party", "client", "buyer", "name"]

/-- Synonyms for the phone column. -/
def phoneKeys : List String := ["phone", "mobile", "contact"]

/-- Synonyms for the product column. -/
def productKeys : List String := ["product", "item", "description"]

/-- Synonyms for the quantity column. -/
def qtyKeys : List String := ["qty", "quantity", "pcs", "pieces", "units"]

/-- Synonyms for the unit-price column. -/
def priceKeys : List String := ["unit price", "unit", "price", "rate", "amount"]

/-- Synonyms for the tax column. -/
def taxKeys : List String := ["tax", "gst", "cgst", "sgst", "igst", "vat"]

/-- Synonyms for the grand-total column. -/
def totalKeys : List String := ["grand total", "invoice total", "total amount", "total", "amount"]

/-- Synonyms for the date column. -/
def dateKeys : List String := ["invoice date", "bill date", "date", "dt"]

/-- Tax rescaling of the spreadsheet path:
`taxRaw > 1.0 ? (taxRaw / 100) : taxRaw`. -/
def excelTaxRate (taxRaw : ℚ) : ℚ := if 1 < taxRaw then taxRaw / 100 else taxRaw

/-- Cell values of one spreadsheet row after the `String(...).trim()` and
`Number(...) || 0` coercions that `extractFromExcelBuffer` applies before
building records. -/
structure ExcelCells where
  name : String
  cust : String
  phone : String
  date : String
  serial : String
  unitPrice : ℚ
  qty : ℚ
  taxRaw : ℚ
  totalFromRow : ℚ
deriving DecidableEq

/-- Per-row record construction of `extractFromExcelBuffer`: skip rows where
every interesting cell is empty/zero, push a product only for a non-empty
product name, a customer only for a non-empty customer cell, and always one
invoice with at most one item. -/
def excelRow (r : ExcelCells) : RawFragment :=
  let taxRate := excelTaxRate r.taxRaw
  let priceWithTax := r.unitPrice * (1 + taxRate)
  if r.name ≠ "" ∨ r.cust ≠ "" ∨ r.unitPrice ≠ 0 ∨ r.qty ≠ 0 ∨ r.totalFromRow ≠ 0 then
    { products :=
        if r.name ≠ "" then
          [{ name := r.name, unitPrice := some r.unitPrice, taxRate := some taxRate,
             priceWithTax := some priceWithTax, quantity := some r.qty, discount := none }]
        else []
      customers :=
        if r.cust ≠ "" then
          [{ name := r.cust, phone := some r.phone, totalPurchase := some r.totalFromRow }]
        else []
      invoices :=
        [{ serialNumber := some r.serial
           customerName := some r.cust
           date := some r.date
           items :=
             if r.name ≠ "" then
               [{ productName := some r.name, qty := some r.qty,
                  unitPrice := some r.unitPrice, taxRate := some taxRate, productId := none }]
             else []
           tax := some (r.unitPrice * r.qty * taxRate)
           totalAmount :=
             some (if r.totalFromRow ≠ 0 then r.totalFromRow
                   else r.unitPrice * r.qty * (1 + taxRate)) }] }
  else emptyFragment

/-! ## External extraction adapter (`extractWithGemini`) -/

/-- Outcome of one `httpGenerateContent` call: either the response text of a
success envelope or the message of the thrown error. -/
inductive GenResult where
  | ok (text : String) : GenResult
  | err (msg : String) : GenResult
deriving DecidableEq

/-- Error classification of the adapter: the `/not found|404/i` test applied
to the caught error message. -/
def notFoundMsg (msg : String) : Bool :=
  strIncludes (lowerStr msg) "not found" || strIncludes (lowerStr msg) "404"

/-- Candidate loop of `extractWithGemini`: try models in order, keep the
first success, advance past "model not found" errors, stop on anything
else. `none` means no usable response (exhausted or aborted). -/
def tryCandidates (svc : String → GenResult) : List String → Option String
  | [] => none
  | m :: rest =>
    match svc m with
    | .ok t => some t
    | .err msg => if notFoundMsg msg then tryCandidates svc rest else none

/-- The `extractWithGemini` call, parameterized over the external service
(`svc`, one call per candidate model) and the response-to-fragment parser
(`parse`, itself total in the source: any parse failure yields the empty
fragment).  The call itself never throws: every path returns a fragment. -/
def extractWithGemini (svc : String → GenResult) (parse : String → RawFragment)
    (candidates : List String) : RawFragment :=
  match tryCandidates svc candidates with
  | some t => parse t
  | none => emptyFragment

/-! ## Extract endpoint (`index.js`, `app.post('/api/extract')`) -/

/-- Uploaded file as seen by the endpoint. -/
structure UploadFile where
  originalname : String
  content : String
deriving DecidableEq

/-- Outcome of `extractFromFiles` as observed by the route handler: a
normalized result, or a thrown internal fault with its message. -/
inductive ExtractOutcome where
  | ok (r : NormResult) : ExtractOutcome
  | fault (msg : String) : ExtractOutcome
deriving DecidableEq

/-- HTTP response of the extract route. -/
inductive ApiResponse where
  | clientErr (status : Nat) (error : String) : ApiResponse
  | serverErr (status : Nat) (error : String) : ApiResponse
  | success (body : NormResult) : ApiResponse
deriving DecidableEq

/-- Route handler of `POST /api/extract`: reject an empty batch with a 400
before any extraction work, otherwise run the pipeline and report a thrown
fault as a 500 carrying `e.message || 'Extraction failed'`. -/
def postExtract (files : List UploadFile)
    (run : List UploadFile → ExtractOutcome) : ApiResponse :=
  if files.length = 0 then .clientErr 400 "No files uploaded"
  else
    match run files with
    | .ok r => .success r
    | .fault m => .serverErr 500 (if m = "" then "Extraction failed" else m)

/-! ## Registration streams

`normalize` registers products in a fixed order: the fragment's own products
first, then — per invoice, per item — the items whose `productId` read was
falsy.  Customers are registered from the fragment's customers first, then
from each invoice's `customerName`.  The following definitions spell out
those streams so that the registry folds can be reasoned about uniformly. -/

/-- Product registrations caused by one item (empty unless the raw
`productId` is falsy). -/
def itemRecs (it : RawItem) : List RawProduct :=
  match jsTruthyStr it.productId with
  | some _ => []
  | none => [itemAsRawProduct it]

/-- Product registrations caused by one invoice. -/
def invProdRecs (inv : RawInvoice) : List RawProduct :=
  inv.items.flatMap itemRecs

/-- Full ordered stream of product registrations of one `normalize` run. -/
def prodRecords (raw : RawFragment) : List RawProduct :=
  raw.products ++ raw.invoices.flatMap invProdRecs

/-- Customer registration caused by one invoice. -/
def custRec (inv : RawInvoice) : RawCustomer :=
  ⟨strOrEmpty inv.customerName, none, none⟩

/-- Full ordered stream of customer registrations of one `normalize` run. -/
def custRecords (raw : RawFragment) : List RawCustomer :=
  raw.customers ++ raw.invoices.map custRec

/-- Fold of `addEntry` over a list of records. -/
def regFold (key : α → String) (pre : String) (mk : String → α → β)
    (st : Reg β) (l : List α) : Reg β :=
  l.foldl (fun s r => (addEntry key pre mk s r).2) st

/-- First-occurrence filter: keep each record whose key is non-empty and not
yet seen, in order. -/
def dedupFirst (key : α → String) (seen : List String) : List α → List α
  | [] => []
  | r :: rs =>
    if key r = "" then dedupFirst key seen rs
    else if key r ∈ seen then dedupFirst key seen rs
    else r :: dedupFirst key (key r :: seen) rs

/-- Entities built from a record list with sequential ids starting at `n`. -/
def build (pre : String) (mk : String → α → β) (n : Nat) : List α → List β
  | [] => []
  | r :: rs => mk (pre ++ toString n) r :: build pre mk (n + 1) rs

/-- Product-registry fold. -/
def pFold : Reg Product → List RawProduct → Reg Product :=
  regFold prodKey "prod_" mkProductE

/-- Customer-registry fold. -/
def cFold : Reg Customer → List RawCustomer → Reg Customer :=
  regFold custKey "cust_" mkCustomerE

/-- Subtotal of a raw item list after the numeric coercions of `normalize`. -/
def rawItemsSubtotal (its : List RawItem) : ℚ :=
  (its.map (fun it => numOr0 it.unitPrice * numOr0 it.qty)).sum

/-- Tax of a raw item list after the numeric coercions of `normalize`. -/
def rawItemsTax (its : List RawItem) : ℚ :=
  (its.map (fun it => numOr0 it.unitPrice * numOr0 it.qty * numOr0 it.taxRate)).sum

/-- Registry invariant: every id stored in the name→id map is the id of a
registered entity. -/
def RegGood (idOf : β → String) (st : Reg β) : Prop :=
  ∀ kv ∈ st.idByName, kv.2 ∈ st.entries.map idOf

/-- Removes leading ASCII spaces from a character list. -/
def dropSpaces : List Char → List Char
  | [] => []
  | c :: cs => if c = ' ' then dropSpaces cs else c :: cs

/-- Modelled from the spec's words "lowercased trimmed name": whitespace
trimming composed with lowercasing.  The source's dedup key applies no trim;
this definition exists only to state that spec-side key. -/
def trimLower (s : String) : String :=
  lowerStr ⟨(dropSpaces (dropSpaces s.data.reverse).reverse)⟩

/-! ## Concrete inputs used by counterexamples and witnesses -/

/-- Fragment with one raw customer carrying `totalPurchase = 50` and one
invoice referencing that customer with `totalAmount = 0`. -/
def fragC1 : RawFragment :=
  ⟨[], [⟨"a", none, some 50⟩], [⟨none, some "a", none, [], none, some 0⟩]⟩

/-- The customer output by `normalize fragC1`. -/
def custC1 : Customer := ⟨"cust_1", "a", "", 50⟩

/-- The invoice output by `normalize fragC1`. -/
def invC1out : Invoice := ⟨"inv_1", "", "cust_1", [], 0, 0, ""⟩

/-- Invoice whose source supplied a non-zero `tax` (18) and `totalAmount`
(118) next to one taxRate-0 item. -/
def invC2 : RawInvoice :=
  ⟨none, none, none, [⟨some "w", some 1, some 100, some 0, none⟩], some 18, some 118⟩

/-- Fragment wrapping `invC2`. -/
def fragC2 : RawFragment := ⟨[], [], [invC2]⟩

/-- The invoice output by `normalize fragC2`. -/
def invC2out : Invoice :=
  ⟨"inv_1", "", "", [⟨some "prod_1", 1, 100, 0⟩], 0, 118, ""⟩

/-- The product output by `normalize fragC2`. -/
def prodC2out : Product := ⟨"prod_1", "w", 100, 0, 100, some 1, none⟩

/-- Fragment with two raw products whose names differ only by leading
whitespace (`"a"` and `" a"`). -/
def fragC3 : RawFragment :=
  ⟨[⟨"a", some 1, some 0, none, none, none⟩, ⟨" a", some 2, some 0, none, none, none⟩], [], []⟩

/-- Fragment with one invoice item that carries a raw `productId` pointing
nowhere. -/
def fragC4 : RawFragment :=
  ⟨[], [],
   [⟨none, none, none, [⟨some "w", some 1, some 5, some 0, some "bogus"⟩], none, none⟩]⟩

/-- Well-formed fragment used to exercise the amended referential-integrity
statement. -/
def fragC4w : RawFragment :=
  ⟨[], [],
   [⟨none, some "Ann", none, [⟨some "w", some 1, some 5, some 0, none⟩], none, none⟩]⟩

/-- Raw invoice of `fragC4w`. -/
def rawInvC4w : RawInvoice :=
  ⟨none, some "Ann", none, [⟨some "w", some 1, some 5, some 0, none⟩], none, none⟩

/-- Raw item of `fragC4w`. -/
def rawItemC4w : RawItem := ⟨some "w", some 1, some 5, some 0, none⟩

/-- The invoice output by `normalize fragC4w`. -/
def invC4w : Invoice := ⟨"inv_1", "", "cust_1", [⟨some "prod_1", 1, 5, 0⟩], 0, 5, ""⟩

/-- The item output inside `invC4w`. -/
def itemC4w : InvoiceItem := ⟨some "prod_1", 1, 5, 0⟩

/-- The product output by `normalize fragC4w`. -/
def prodC4w : Product := ⟨"prod_1", "w", 5, 0, 5, some 1, none⟩

/-- The customer output by `normalize fragC4w` (`totalPurchase` recomputed
from the referencing invoice). -/
def custC4w : Customer := ⟨"cust_1", "Ann", "", 5⟩

/-- Spreadsheet row cells with a percent-form tax cell (`18`). -/
def cellsC5 : ExcelCells := ⟨"Widget", "", "", "", "", 100, 2, 18, 236⟩

/-- The raw product produced from `cellsC5`. -/
def prodC5 : RawProduct :=
  ⟨"Widget", some 100, some (18 / 100), some (100 * (1 + 18 / 100)), some 2, none⟩

/-- External service where the first three candidate models report a
model-not-found error and the fourth succeeds (scenario E). -/
def svcE : String → GenResult :=
  fun m => if m = "m4" then .ok "T" else .err "404"

/-- Parser stub recording which response text was used. -/
def parseE : String → RawFragment :=
  fun t => ⟨[⟨t, none, none, none, none, none⟩], [], []⟩

/-- Extraction pipeline stub that always throws. -/
def runE : List UploadFile → ExtractOutcome := fun _ => .fault "boom"

/-- Fragment with a single product whose `priceWithTax` is not supplied. -/
def fragC9 : RawFragment :=
  ⟨[⟨"widget", some 10, some 2, none, none, none⟩], [], []⟩

/-- The product output by `normalize fragC9`. -/
def prodC9 : Product :=
  ⟨"prod_1", "widget", 10, 2, 30, none, none⟩

/-- Fragment with duplicate product and customer keys whose later
occurrences carry different field values. -/
def fragC10 : RawFragment :=
  ⟨[⟨"Ball", some 5, some 0, none, none, none⟩, ⟨"ball", some 7, some 1, some 99, some 2, some 1⟩],
   [⟨"Ann", some "123", some 40⟩, ⟨"ANN", some "999", some 70⟩], []⟩

/-- The product output by `normalize fragC10` (fields of the first
occurrence). -/
def prodC10 : Product := ⟨"prod_1", "Ball", 5, 0, 5, none, none⟩

/-- The customer output by `normalize fragC10` (fields of the first
occurrence). -/
def custC10 : Customer := ⟨"cust_1", "Ann", "123", 40⟩

lemma regFold_nil (key : α → String) (pre : String) (mk : String → α → β)
    (st : Reg β) : regFold key pre mk st [] = st := rfl

lemma regFold_cons (key : α → String) (pre : String) (mk : String → α → β)
    (st : Reg β) (r : α) (l : List α) :
    regFold key pre mk st (r :: l) = regFold key pre mk (addEntry key pre mk st r).2 l := rfl

lemma regFold_append (key : α → String) (pre : String) (mk : String → α → β)
    (st : Reg β) (l1 l2 : List α) :
    regFold key pre mk st (l1 ++ l2) = regFold key pre mk (regFold key pre mk st l1) l2 := by
  simp [regFold, List.foldl_append]

/-- Characterization of the registry fold: the output array grows by exactly
the entities built (with fresh sequential ids) from the first occurrences of
keys not already registered. -/
lemma regFold_entries (key : α → String) (pre : String) (mk : String → α → β)
    (l : List α) : ∀ st : Reg β,
    (regFold key pre mk st l).entries
      = st.entries ++ build pre mk (st.entries.length + 1)
          (dedupFirst key (st.idByName.map Prod.fst) l) := by
  induction l with
  | nil => intro st; simp [regFold, dedupFirst, build]
  | cons r rs ih =>
    intro st
    rw [regFold_cons]
    by_cases hk : key r = ""
    · have he : (addEntry key pre mk st r).2 = st := by
        simp [addEntry, hk]
      rw [he, ih]
      simp [dedupFirst, hk]
    · by_cases hs : key r ∈ st.idByName.map Prod.fst
      · have he : (addEntry key pre mk st r).2 = st := by
          simp [addEntry, hk, hs]
        rw [he, ih]
        simp [dedupFirst, hk, hs]
      · have he : (addEntry key pre mk st r).2
            = ⟨(key r, pre ++ toString (st.entries.length + 1)) :: st.idByName,
               st.entries ++ [mk (pre ++ toString (st.entries.length + 1)) r]⟩ := by
          simp [addEntry, hk, hs]
        rw [he, ih]
        simp [dedupFirst, hk, hs, build, List.append_assoc]

/-- Membership in the dedup stream implies membership in the source list. -/
lemma dedupFirst_subset (key : α → String) :
    ∀ (l : List α) (seen : List String) (r : α), r ∈ dedupFirst key seen l → r ∈ l := by
  intro l
  induction l with
  | nil => intro seen r h; simp [dedupFirst] at h
  | cons x xs ih =>
    intro seen r h
    rw [dedupFirst] at h
    by_cases hk : key x = ""
    · simp only [hk, if_pos rfl] at h
      exact List.mem_cons_of_mem x (ih seen r (by simpa [hk] using h))
    · by_cases hs : key x ∈ seen
      · simp only [if_neg hk, if_pos hs] at h
        exact List.mem_cons_of_mem x (ih seen r h)
      · simp only [if_neg hk, if_neg hs] at h
        rcases List.mem_cons.mp h with h1 | h2
        · exact h1 ▸ List.mem_cons_self x xs
        · exact List.mem_cons_of_mem x (ih _ r h2)

/-- Every record kept by the dedup stream is the first record of its key in
the source list, its key is non-empty, and its key was not previously seen. -/
lemma dedupFirst_find (key : α → String) :
    ∀ (l : List α) (seen : List String) (r : α), r ∈ dedupFirst key seen l →
      key r ≠ "" ∧ key r ∉ seen ∧ l.find? (fun x => key x == key r) = some r := by
  intro l
  induction l with
  | nil => intro seen r h; simp [dedupFirst] at h
  | cons x xs ih =>
    intro seen r h
    rw [dedupFirst] at h
    by_cases hk : key x = ""
    · simp only [hk, if_pos rfl] at h
      obtain ⟨h1, h2, h3⟩ := ih seen r (by simpa [hk] using h)
      refine ⟨h1, h2, ?_⟩
      rw [List.find?_cons_of_neg, h3]
      simp [hk]
      exact fun hc => h1 hc.symm
    · by_cases hs : key x ∈ seen
      · simp only [if_neg hk, if_pos hs] at h
        obtain ⟨h1, h2, h3⟩ := ih seen r h
        refine ⟨h1, h2, ?_⟩
        rw [List.find?_cons_of_neg, h3]
        simp only [beq_iff_eq]
        exact fun hc => h2 (hc ▸ hs)
      · simp only [if_neg hk, if_neg hs] at h
        rcases List.mem_cons.mp h with h1 | h2
        · subst h1
          exact ⟨hk, hs, by rw [List.find?_cons_of_pos] ; simp⟩
        · obtain ⟨h1, h2, h3⟩ := ih _ r h2
          have hne : key r ≠ key x := by
            intro hc
            exact h2 (by simp [hc])
          refine ⟨h1, fun hc => h2 (List.mem_cons_of_mem _ hc), ?_⟩
          rw [List.find?_cons_of_neg, h3]
          simp only [beq_iff_eq]
          exact fun hc => hne hc.symm

/-- Keys of the dedup stream are pairwise distinct and disjoint from `seen`. -/
lemma dedupFirst_nodup (key : α → String) :
    ∀ (l : List α) (seen : List String),
      ((dedupFirst key seen l).map key).Nodup := by
  intro l
  induction l with
  | nil => intro seen; simp [dedupFirst]
  | cons x xs ih =>
    intro seen
    rw [dedupFirst]
    by_cases hk : key x = ""
    · simpa [hk] using ih seen
    · by_cases hs : key x ∈ seen
      · simpa [hk, hs] using ih seen
      · simp only [if_neg hk, if_neg hs, List.map_cons, List.nodup_cons]
        refine ⟨?_, ih (key x :: seen)⟩
        intro hc
        rcases List.mem_map.mp hc with ⟨r, hr, hkey⟩
        have := (dedupFirst_find key xs (key x :: seen) r hr).2.1
        exact this (hkey ▸ List.mem_cons_self _ _)

/-- Every built entity comes from some source record via `mk`. -/
lemma build_mem (pre : String) (mk : String → α → β) :
    ∀ (l : List α) (n : Nat) (b : β), b ∈ build pre mk n l →
      ∃ r ∈ l, ∃ m : Nat, b = mk (pre ++ toString m) r := by
  intro l
  induction l with
  | nil => intro n b h; simp [build] at h
  | cons x xs ih =>
    intro n b h
    rw [build] at h
    rcases List.mem_cons.mp h with h1 | h2
    · exact ⟨x, List.mem_cons_self x xs, n, h1⟩
    · obtain ⟨r, hr, m, hm⟩ := ih (n + 1) b h2
      exact ⟨r, List.mem_cons_of_mem x hr, m, hm⟩

/-- Mapping a field out of the built entities equals mapping the underlying
record function, whenever `mk` computes that field independently of the id. -/
lemma build_map (pre : String) (mk : String → α → β) (f : β → γ) (g : α → γ)
    (h : ∀ id r, f (mk id r) = g r) :
    ∀ (l : List α) (n : Nat), (build pre mk n l).map f = l.map g := by
  intro l
  induction l with
  | nil => intro n; simp [build]
  | cons x xs ih =>
    intro n
    rw [build]
    simp [h, ih (n + 1)]

lemma processItems_state : ∀ (its : List RawItem) (ps : Reg Product),
    (processItems ps its).2 = pFold ps (its.flatMap itemRecs) := by
  intro its
  induction its with
  | nil => intro ps; simp [processItems, pFold, regFold]
  | cons it rest ih =>
    intro ps
    have hstep : (processItem ps it).2 = pFold ps (itemRecs it) := by
      cases h : jsTruthyStr it.productId with
      | some pid => simp [processItem, h, itemRecs, pFold, regFold]
      | none => simp [processItem, h, itemRecs, pFold, regFold, addProduct]
    show (processItems (processItem ps it).2 rest).2 = _
    rw [ih, hstep, List.flatMap_cons, pFold, regFold_append]

lemma processInvoice_prodState (ps : Reg Product) (cs : Reg Customer)
    (n : Nat) (inv : RawInvoice) :
    (processInvoice ps cs n inv).2.1 = pFold ps (invProdRecs inv) := by
  show (processItems ps inv.items).2 = _
  rw [processItems_state, invProdRecs]

lemma processInvoice_custState (ps : Reg Product) (cs : Reg Customer)
    (n : Nat) (inv : RawInvoice) :
    (processInvoice ps cs n inv).2.2 = (addCustomer cs (custRec inv)).2 := rfl

lemma processInvoices_state : ∀ (l : List RawInvoice) (ps : Reg Product)
    (cs : Reg Customer) (n : Nat),
    (processInvoices ps cs n l).2.1 = pFold ps (l.flatMap invProdRecs) ∧
    (processInvoices ps cs n l).2.2 = cFold cs (l.map custRec) := by
  intro l
  induction l with
  | nil => intro ps cs n; constructor <;> simp [processInvoices, pFold, cFold, regFold]
  | cons inv rest ih =>
    intro ps cs n
    have h := ih (processInvoice ps cs n inv).2.1 (processInvoice ps cs n inv).2.2 (n + 1)
    constructor
    · show (processInvoices (processInvoice ps cs n inv).2.1 (processInvoice ps cs n inv).2.2 (n+1) rest).2.1 = _
      rw [h.1, processInvoice_prodState, List.flatMap_cons, pFold, regFold_append]
    · show (processInvoices (processInvoice ps cs n inv).2.1 (processInvoice ps cs n inv).2.2 (n+1) rest).2.2 = _
      rw [h.2, processInvoice_custState, List.map_cons, cFold, regFold_cons]
      rfl

lemma normalize_prodState (raw : RawFragment) :
    (processInvoices
        (pFold ⟨[], []⟩ raw.products)
        (cFold ⟨[], []⟩ raw.customers) 1 raw.invoices).2.1
      = pFold ⟨[], []⟩ (prodRecords raw) := by
  rw [(processInvoices_state raw.invoices _ _ 1).1, prodRecords, pFold, regFold_append]

/-- The products of a `normalize` run are exactly the entities built, with
sequential ids from `prod_1`, from the first occurrence of each distinct
non-empty lowercased name in the product registration stream. -/
lemma normalize_products_eq (raw : RawFragment) :
    (normalize raw).products
      = build "prod_" mkProductE 1 (dedupFirst prodKey [] (prodRecords raw)) := by
  show (processInvoices
      (pFold ⟨[], []⟩ raw.products) (cFold ⟨[], []⟩ raw.customers) 1 raw.invoices).2.1.entries = _
  rw [normalize_prodState, pFold, regFold_entries]
  simp

/-- The invoices component of a `normalize` run. -/
lemma normalize_invoices_def (raw : RawFragment) :
    (normalize raw).invoices
      = (processInvoices (pFold ⟨[], []⟩ raw.products)
          (cFold ⟨[], []⟩ raw.customers) 1 raw.invoices).1 := rfl

/-- The customers of a `normalize` run are the recompute map applied to the
entities built from the first occurrence of each distinct non-empty
lowercased name in the customer registration stream. -/
lemma normalize_customers_eq (raw : RawFragment) :
    (normalize raw).customers
      = (build "cust_" mkCustomerE 1 (dedupFirst custKey [] (custRecords raw))).map
          (recomputeCustomer (normalize raw).invoices) := by
  show (processInvoices
      (pFold ⟨[], []⟩ raw.products) (cFold ⟨[], []⟩ raw.customers) 1 raw.invoices).2.2.entries.map _ = _
  rw [(processInvoices_state raw.invoices _ _ 1).2]
  rw [show cFold (cFold ⟨[], []⟩ raw.customers) (raw.invoices.map custRec)
        = cFold ⟨[], []⟩ (custRecords raw) by rw [custRecords, cFold, regFold_append]]
  rw [cFold, regFold_entries]
  simp only [List.nil_append, List.length_nil, List.map_nil, normalize_invoices_def]
  exact List.map_congr_left (fun a _ => rfl)

lemma processItem_fields (ps : Reg Product) (it : RawItem) :
    (processItem ps it).1.qty = numOr0 it.qty ∧
    (processItem ps it).1.unitPrice = numOr0 it.unitPrice ∧
    (processItem ps it).1.taxRate = numOr0 it.taxRate := by
  cases h : jsTruthyStr it.productId <;> simp [processItem, h]

lemma processItems_sums : ∀ (its : List RawItem) (ps : Reg Product),
    itemsSubtotal (processItems ps its).1 = rawItemsSubtotal its ∧
    itemsTax (processItems ps its).1 = rawItemsTax its := by
  intro its
  induction its with
  | nil => intro ps; simp [processItems, itemsSubtotal, itemsTax, rawItemsSubtotal, rawItemsTax]
  | cons it rest ih =>
    intro ps
    obtain ⟨hq, hu, ht⟩ := processItem_fields ps it
    have hrest := ih (processItem ps it).2
    constructor
    · show itemsSubtotal ((processItem ps it).1 :: (processItems (processItem ps it).2 rest).1) = _
      simp only [itemsSubtotal, List.map_cons, List.sum_cons, hq, hu] at hrest ⊢
      rw [hrest.1]
      simp [rawItemsSubtotal]
    · show itemsTax ((processItem ps it).1 :: (processItems (processItem ps it).2 rest).1) = _
      simp only [itemsTax, List.map_cons, List.sum_cons, hq, hu, ht] at hrest ⊢
      rw [hrest.2]
      simp [rawItemsTax]

/-- One-to-one correspondence between raw invoices and built invoices: the
built `tax` is always the item sum, and `totalAmount` is the supplied value
when truthy, else `subtotal + tax`. -/
lemma processInvoices_spec : ∀ (l : List RawInvoice) (ps : Reg Product)
    (cs : Reg Customer) (n : Nat),
    ((processInvoices ps cs n l).1).length = l.length ∧
    ∀ pr ∈ List.zip l (processInvoices ps cs n l).1,
      pr.2.tax = rawItemsTax pr.1.items ∧
      pr.2.totalAmount
        = jsOrNum pr.1.totalAmount (rawItemsSubtotal pr.1.items + rawItemsTax pr.1.items) := by
  intro l
  induction l with
  | nil => intro ps cs n; simp [processInvoices]
  | cons inv rest ih =>
    intro ps cs n
    have hhead_tax : (processInvoice ps cs n inv).1.tax = rawItemsTax inv.items := by
      show itemsTax (processItems ps inv.items).1 = _
      exact (processItems_sums inv.items ps).2
    have hhead_total : (processInvoice ps cs n inv).1.totalAmount
        = jsOrNum inv.totalAmount (rawItemsSubtotal inv.items + rawItemsTax inv.items) := by
      show jsOrNum inv.totalAmount
          (itemsSubtotal (processItems ps inv.items).1 + itemsTax (processItems ps inv.items).1) = _
      rw [(processItems_sums inv.items ps).1, (processItems_sums inv.items ps).2]
    have htail := ih (processInvoice ps cs n inv).2.1 (processInvoice ps cs n inv).2.2 (n + 1)
    constructor
    · show ((processInvoice ps cs n inv).1 :: _).length = _
      simp [htail.1]
    · intro pr hpr
      have : pr ∈ (inv, (processInvoice ps cs n inv).1) ::
          List.zip rest (processInvoices (processInvoice ps cs n inv).2.1
            (processInvoice ps cs n inv).2.2 (n + 1) rest).1 := hpr
      rcases List.mem_cons.mp this with h1 | h2
      · subst h1
        exact ⟨hhead_tax, hhead_total⟩
      · exact htail.2 pr h2

/-- C2 (amended): in every `normalize` run the invoices correspond 1-1 and
in order with the raw invoices; each output invoice's `tax` equals the sum
over its items of `unitPrice*qty*taxRate` regardless of any supplied `tax`
value, and its `totalAmount` equals the supplied value when non-zero, else
`subtotal + tax`. -/
theorem claim2_amended (raw : RawFragment) :
    (normalize raw).invoices.length = raw.invoices.length ∧
    ∀ pr ∈ List.zip raw.invoices (normalize raw).invoices,
      pr.2.tax = rawItemsTax pr.1.items ∧
      pr.2.totalAmount
        = jsOrNum pr.1.totalAmount (rawItemsSubtotal pr.1.items + rawItemsTax pr.1.items) := by
  rw [normalize_invoices_def]
  exact ⟨(processInvoices_spec raw.invoices _ _ 1).1,
         (processInvoices_spec raw.invoices _ _ 1).2⟩

lemma normC2_eval : normalize fragC2 = ⟨[prodC2out], [], [invC2out]⟩ := by
  norm_num [normalize, processInvoices, processInvoice, processItems, processItem,
    addProduct, addCustomer, addEntry, mkProductE, mkCustomerE, prodKey, custKey,
    itemAsRawProduct, itemsSubtotal, itemsTax, jsOrNum, jsTruthyNum, jsTruthyStr,
    numOr0, strOrEmpty, recomputeCustomer, custTotal, lowerStr, lowChar,
    fragC2, invC2, invC2out, prodC2out]
  decide

/-- C2 counterexample: the source of `invC2` supplies the explicit non-zero
`tax` 18 (and `totalAmount` 118), yet the normalizer emits `tax = 0` (the
item sum) — the supplied tax value is never used, contradicting the claim
that "tax is the supplied value" in that case. -/
theorem claim2_counterexample :
    fragC2.invoices.map RawInvoice.tax = [some 18] ∧
    fragC2.invoices.map RawInvoice.totalAmount = [some 118] ∧
    (normalize fragC2).invoices.map Invoice.tax = [0] ∧
    ((0 : ℚ) ≠ 18) := by
  rw [normC2_eval]
  exact ⟨by simp [fragC2, invC2], by simp [fragC2, invC2], by simp [invC2out], by norm_num⟩

/-- Witness for C2 (amended) at the concrete fragment `fragC2`. -/
theorem claim2_witness :
    invC2out.tax = rawItemsTax invC2.items ∧
    invC2out.totalAmount
      = jsOrNum invC2.totalAmount (rawItemsSubtotal invC2.items + rawItemsTax invC2.items) :=
  (claim2_amended fragC2).2 (invC2, invC2out) (by rw [normC2_eval]; simp [fragC2])

lemma if_ne_zero_self (x : ℚ) : (if x ≠ 0 then x else (0 : ℚ)) = x := by
  by_cases h : x = 0 <;> simp [h]

/-- Every output product is built, id aside, from the first registration
record bearing its lowercased name. -/
lemma normalize_products_char (raw : RawFragment) :
    ∀ p ∈ (normalize raw).products, ∃ r : RawProduct,
      (prodRecords raw).find? (fun x => prodKey x == lowerStr p.name) = some r ∧
      ∃ m : Nat, p = mkProductE ("prod_" ++ toString m) r := by
  intro p hp
  rw [normalize_products_eq] at hp
  obtain ⟨r, hr, m, hm⟩ := build_mem "prod_" mkProductE _ 1 p hp
  obtain ⟨hk1, hk2, hfind⟩ := dedupFirst_find prodKey _ [] r hr
  have hname : lowerStr p.name = prodKey r := by rw [hm]; rfl
  exact ⟨r, by rw [hname]; exact hfind, m, hm⟩

/-- Every output customer is the recompute map applied to an entity built,
id aside, from the first registration record bearing its lowercased name. -/
lemma normalize_customers_char (raw : RawFragment) :
    ∀ c ∈ (normalize raw).customers, ∃ r : RawCustomer,
      (custRecords raw).find? (fun x => custKey x == lowerStr c.name) = some r ∧
      ∃ c0 : Customer, c0.name = r.name ∧ c0.phone = strOrEmpty r.phone ∧
        c0.totalPurchase = numOr0 r.totalPurchase ∧
        c = recomputeCustomer (normalize raw).invoices c0 := by
  intro c hc
  rw [normalize_customers_eq] at hc
  obtain ⟨c0, hc0, hcc⟩ := List.mem_map.mp hc
  obtain ⟨r, hr, m, hm⟩ := build_mem "cust_" mkCustomerE _ 1 c0 hc0
  obtain ⟨hk1, hk2, hfind⟩ := dedupFirst_find custKey _ [] r hr
  have hname : lowerStr c.name = custKey r := by rw [← hcc, hm]; rfl
  exact ⟨r, by rw [hname]; exact hfind,
         c0, by rw [hm]; rfl, by rw [hm]; rfl, by rw [hm]; rfl, hcc.symm⟩

/-- C3 (amended, "trimmed" dropped): no two output products and no two
output customers of a `normalize` run share the same lowercased (untrimmed)
name. -/
theorem claim3_amended (raw : RawFragment) :
    (((normalize raw).products.map (fun p => lowerStr p.name)).Nodup) ∧
    (((normalize raw).customers.map (fun c => lowerStr c.name)).Nodup) := by
  constructor
  · rw [normalize_products_eq,
      build_map "prod_" mkProductE (fun p => lowerStr p.name) prodKey (fun id r => rfl)]
    exact dedupFirst_nodup prodKey _ []
  · rw [normalize_customers_eq, List.map_map,
      build_map "cust_" mkCustomerE _ custKey (fun id r => rfl)]
    exact dedupFirst_nodup custKey _ []

/-- C3 counterexample: the dedup key is lowercased but NOT trimmed — the
names `"a"` and `" a"` yield two output products that share the same
lowercased trimmed name. -/
theorem claim3_counterexample :
    (normalize fragC3).products.length = 2 ∧
    (((normalize fragC3).products.map (fun p => trimLower p.name)).dedup).length = 1 := by
  decide

/-- C9: whenever no registration record bearing a product's lowercased name
supplies a `priceWithTax`, the output product's `priceWithTax` is derived as
`unitPrice * (1 + taxRate)`. -/
theorem claim9_price_with_tax (raw : RawFragment) (p : Product)
    (hp : p ∈ (normalize raw).products)
    (hs : ∀ r ∈ prodRecords raw, lowerStr r.name = lowerStr p.name → r.priceWithTax = none) :
    p.priceWithTax = p.unitPrice * (1 + p.taxRate) := by
  rw [normalize_products_eq] at hp
  obtain ⟨r, hr, m, hm⟩ := build_mem "prod_" mkProductE _ 1 p hp
  have hrs : r ∈ prodRecords raw := dedupFirst_subset prodKey _ [] r hr
  have hname : lowerStr r.name = lowerStr p.name := by rw [hm]; rfl
  have hnone : r.priceWithTax = none := hs r hrs hname
  rw [hm]
  simp [mkProductE, jsOrNum, hnone]

lemma normC9_eval : normalize fragC9 = ⟨[prodC9], [], []⟩ := by
  have hw : lowerStr "widget" = "widget" := by decide
  norm_num [normalize, processInvoices, processInvoice, processItems, processItem,
    addProduct, addCustomer, addEntry, mkProductE, mkCustomerE, prodKey, custKey,
    itemAsRawProduct, itemsSubtotal, itemsTax, jsOrNum, jsTruthyNum, jsTruthyStr,
    numOr0, strOrEmpty, recomputeCustomer, custTotal, hw, fragC9, prodC9]
  decide

/-- Witness for C9 at the concrete fragment `fragC9`. -/
theorem claim9_witness :
    prodC9.priceWithTax = prodC9.unitPrice * (1 + prodC9.taxRate) :=
  claim9_price_with_tax fragC9 prodC9 (by rw [normC9_eval]; simp)
    (by
      intro r hr _
      simp [prodRecords, fragC9] at hr
      subst hr
      rfl)

/-- C10: every output product's fields come entirely from the first
registration record bearing its lowercased name, and every output customer's
name, phone and pre-recompute `totalPurchase` come entirely from the first
customer record bearing its lowercased name — later records of the same key
change nothing. -/
theorem claim10_first_occurrence (raw : RawFragment) :
    (∀ p ∈ (normalize raw).products, ∃ r : RawProduct,
        (prodRecords raw).find? (fun x => prodKey x == lowerStr p.name) = some r ∧
        p.name = r.name ∧ p.unitPrice = numOr0 r.unitPrice ∧ p.taxRate = numOr0 r.taxRate ∧
        p.priceWithTax = jsOrNum r.priceWithTax (numOr0 r.unitPrice * (1 + numOr0 r.taxRate)) ∧
        p.quantity = jsTruthyNum r.quantity ∧ p.discount = jsTruthyNum r.discount) ∧
    (∀ c ∈ (normalize raw).customers, ∃ r : RawCustomer,
        (custRecords raw).find? (fun x => custKey x == lowerStr c.name) = some r ∧
        c.name = r.name ∧ c.phone = strOrEmpty r.phone ∧
        c.totalPurchase =
          (if custTotal (normalize raw).invoices c.id ≠ 0
           then custTotal (normalize raw).invoices c.id
           else numOr0 r.totalPurchase)) := by
  constructor
  · intro p hp
    obtain ⟨r, hfind, m, hm⟩ := normalize_products_char raw p hp
    exact ⟨r, hfind, by rw [hm]; rfl, by rw [hm]; rfl, by rw [hm]; rfl, by rw [hm]; rfl,
           by rw [hm]; rfl, by rw [hm]; rfl⟩
  · intro c hc
    obtain ⟨r, hfind, c0, hn, hph, htp, hcc⟩ := normalize_customers_char raw c hc
    have hid : c.id = c0.id := by rw [hcc]; rfl
    refine ⟨r, hfind, by rw [hcc]; exact hn, by rw [hcc]; exact hph, ?_⟩
    rw [hid, hcc]
    show (if custTotal (normalize raw).invoices c0.id ≠ 0
          then custTotal (normalize raw).invoices c0.id
          else if c0.totalPurchase ≠ 0 then c0.totalPurchase else 0) = _
    by_cases hs0 : custTotal (normalize raw).invoices c0.id = 0
    · rw [hs0, ← htp]
      by_cases h2 : c0.totalPurchase = 0 <;> simp [h2]
    · simp [hs0]

lemma normC10_eval : normalize fragC10 = ⟨[prodC10], [custC10], []⟩ := by
  have h1 : lowerStr "Ball" = "ball" := by decide
  have h2 : lowerStr "ball" = "ball" := by decide
  have h3 : lowerStr "Ann" = "ann" := by decide
  have h4 : lowerStr "ANN" = "ann" := by decide
  norm_num [normalize, processInvoices, processInvoice, processItems, processItem,
    addProduct, addCustomer, addEntry, mkProductE, mkCustomerE, prodKey, custKey,
    itemAsRawProduct, itemsSubtotal, itemsTax, jsOrNum, jsTruthyNum, jsTruthyStr,
    numOr0, strOrEmpty, recomputeCustomer, custTotal, h1, h2, h3, h4,
    fragC10, prodC10, custC10]
  decide

/-- Witness for C10 at the concrete fragment `fragC10` (two raw products and
two raw customers per key, differing fields). -/
theorem claim10_witness :
    ∃ r : RawProduct,
      (prodRecords fragC10).find? (fun x => prodKey x == lowerStr prodC10.name) = some r ∧
      prodC10.name = r.name ∧ prodC10.unitPrice = numOr0 r.unitPrice ∧
      prodC10.taxRate = numOr0 r.taxRate ∧
      prodC10.priceWithTax
        = jsOrNum r.priceWithTax (numOr0 r.unitPrice * (1 + numOr0 r.taxRate)) ∧
      prodC10.quantity = jsTruthyNum r.quantity ∧ prodC10.discount = jsTruthyNum r.discount :=
  (claim10_first_occurrence fragC10).1 prodC10 (by rw [normC10_eval]; simp)

/-- C1 (amended): a customer's `totalPurchase` equals the sum of
`totalAmount` over its referencing invoices whenever that sum is non-zero;
when the sum is zero (no referencing invoices, or referencing invoices
totalling zero) it falls back to the first-occurrence raw-supplied value. -/
theorem claim1_amended (raw : RawFragment) (c : Customer)
    (hc : c ∈ (normalize raw).customers) :
    (custTotal (normalize raw).invoices c.id ≠ 0 →
      c.totalPurchase = custTotal (normalize raw).invoices c.id) ∧
    (custTotal (normalize raw).invoices c.id = 0 →
      ∃ r : RawCustomer,
        (custRecords raw).find? (fun x => custKey x == lowerStr c.name) = some r ∧
        c.totalPurchase = numOr0 r.totalPurchase) := by
  obtain ⟨r, hfind, c0, hn, hph, htp, hcc⟩ := normalize_customers_char raw c hc
  have hid : c.id = c0.id := by rw [hcc]; rfl
  have hshow : c.totalPurchase
      = (if custTotal (normalize raw).invoices c0.id ≠ 0
         then custTotal (normalize raw).invoices c0.id
         else if c0.totalPurchase ≠ 0 then c0.totalPurchase else 0) := by
    rw [hcc]; rfl
  constructor
  · intro hne
    rw [hid] at hne
    rw [hshow, if_pos hne, hid]
  · intro hz
    rw [hid] at hz
    refine ⟨r, hfind, ?_⟩
    rw [hshow, if_neg (by simp [hz]), ← htp]
    by_cases h2 : c0.totalPurchase = 0 <;> simp [h2]

lemma normC1_eval : normalize fragC1 = ⟨[], [custC1], [invC1out]⟩ := by
  have h1 : lowerStr "a" = "a" := by decide
  have e1 : (("a" : String) = "") ↔ False := by simp
  have e2 : (("a" : String) == "a") = true := by decide
  have t1 : "cust_" ++ toString 1 = "cust_1" := by decide
  have t2 : "inv_" ++ toString 1 = "inv_1" := by decide
  have t3 : (("cust_1" : String) == "") = false := by decide
  have t4 : (("cust_1" : String) == "cust_1") = true := by decide
  norm_num [normalize, processInvoices, processInvoice, processItems, processItem,
    addProduct, addCustomer, addEntry, mkProductE, mkCustomerE, prodKey, custKey,
    itemAsRawProduct, itemsSubtotal, itemsTax, jsOrNum, jsTruthyNum, jsTruthyStr,
    numOr0, strOrEmpty, recomputeCustomer, custTotal, List.lookup,
    h1, e1, e2, t1, t2, t3, t4, fragC1, custC1, invC1out]

/-- C1 counterexample: the customer `"a"` has exactly one referencing
invoice (`cust_1`, `totalAmount = 0`), yet its output `totalPurchase` is the
raw-supplied 50, not the sum 0 — the fallback fires on a zero sum, not only
when there are zero referencing invoices. -/
theorem claim1_counterexample :
    (normalize fragC1).invoices.map Invoice.customerId = ["cust_1"] ∧
    (normalize fragC1).invoices.map Invoice.totalAmount = [0] ∧
    (normalize fragC1).customers.map Customer.id = ["cust_1"] ∧
    (normalize fragC1).customers.map Customer.totalPurchase = [50] ∧
    ((50 : ℚ) ≠ 0) := by
  rw [normC1_eval]
  refine ⟨by simp [invC1out], by simp [invC1out], by simp [custC1], by simp [custC1], by norm_num⟩

/-- Witness for C1 (amended) at the concrete fragment `fragC1`. -/
theorem claim1_witness :
    ∃ r : RawCustomer,
      (custRecords fragC1).find? (fun x => custKey x == lowerStr custC1.name) = some r ∧
      custC1.totalPurchase = numOr0 r.totalPurchase :=
  (claim1_amended fragC1 custC1 (by rw [normC1_eval]; simp)).2
    (by
      rw [normC1_eval]
      have t3 : (("cust_1" : String) == "") = false := by decide
      have t4 : (("cust_1" : String) == "cust_1") = true := by decide
      norm_num [custTotal, invC1out, custC1, t3, t4])

/-- Every product and invoice item produced by one spreadsheet row carries
the rescaled tax rate. -/
lemma excelRow_tax (r : ExcelCells) :
    (∀ p ∈ (excelRow r).products, p.taxRate = some (excelTaxRate r.taxRaw)) ∧
    (∀ inv ∈ (excelRow r).invoices, ∀ it ∈ inv.items,
      it.taxRate = some (excelTaxRate r.taxRaw)) := by
  unfold excelRow
  split
  · constructor
    · intro p hp
      simp only at hp
      split at hp
      · rw [List.mem_singleton.mp hp]
      · simp at hp
    · intro inv hinv it hit
      simp only at hinv
      rw [List.mem_singleton.mp hinv] at hit
      simp only at hit
      split at hit
      · rw [List.mem_singleton.mp hit]
      · simp at hit
  · constructor
    · intro p hp
      simp [emptyFragment] at hp
    · intro inv hinv
      simp [emptyFragment] at hinv

/-- C5: the spreadsheet tax cell is rescaled — a raw value strictly greater
than 1 is divided by 100, a value at most 1 is kept unchanged; in particular
18 becomes 0.18 and 0.18 stays 0.18. -/
theorem claim5_tax_rescaling (r : ExcelCells) :
    (1 < r.taxRaw →
      (∀ p ∈ (excelRow r).products, p.taxRate = some (r.taxRaw / 100)) ∧
      (∀ inv ∈ (excelRow r).invoices, ∀ it ∈ inv.items,
        it.taxRate = some (r.taxRaw / 100))) ∧
    (r.taxRaw ≤ 1 →
      (∀ p ∈ (excelRow r).products, p.taxRate = some r.taxRaw) ∧
      (∀ inv ∈ (excelRow r).invoices, ∀ it ∈ inv.items, it.taxRate = some r.taxRaw)) ∧
    excelTaxRate 18 = (0.18 : ℚ) ∧ excelTaxRate (0.18 : ℚ) = (0.18 : ℚ) := by
  obtain ⟨hp, hi⟩ := excelRow_tax r
  have hrw : ∀ h : 1 < r.taxRaw, excelTaxRate r.taxRaw = r.taxRaw / 100 := by
    intro h; rw [excelTaxRate, if_pos h]
  have hrw2 : ∀ h : r.taxRaw ≤ 1, excelTaxRate r.taxRaw = r.taxRaw := by
    intro h; rw [excelTaxRate, if_neg (by exact not_lt.mpr h)]
  refine ⟨fun hgt => ⟨?_, ?_⟩, fun hle => ⟨?_, ?_⟩, by norm_num [excelTaxRate],
          by norm_num [excelTaxRate]⟩
  · intro p hmem; rw [hp p hmem, hrw hgt]
  · intro inv hinv it hit; rw [hi inv hinv it hit, hrw hgt]
  · intro p hmem; rw [hp p hmem, hrw2 hle]
  · intro inv hinv it hit; rw [hi inv hinv it hit, hrw2 hle]

/-- Witness for C5 at the concrete row `cellsC5` (tax cell 18). -/
theorem claim5_witness : prodC5.taxRate = some (cellsC5.taxRaw / 100) :=
  ((claim5_tax_rescaling cellsC5).1 (by norm_num [cellsC5])).1 prodC5
    (by
      have hW : (("Widget" : String) = "") ↔ False := by decide
      norm_num [excelRow, excelTaxRate, cellsC5, prodC5, hW])

/-- First-match characterization of `List.find?` over an append split. -/
lemma find_first_in_append (p : String → Bool) :
    ∀ (l1 : List String) (h : String) (l2 : List String),
      (∀ x ∈ l1, p x = false) → p h = true →
      (l1 ++ h :: l2).find? p = some h := by
  intro l1
  induction l1 with
  | nil => intro h l2 _ hm; simp [List.find?_cons_of_pos, hm]
  | cons a as ih =>
    intro h l2 hpre hm
    have ha := hpre a (List.mem_cons_self a as)
    rw [List.cons_append, List.find?_cons_of_neg _ (by simp [ha])]
    exact ih h l2 (fun x hx => hpre x (List.mem_cons_of_mem a hx)) hm

/-- C6 (amended): each role independently selects the first header whose
lowercased text contains one of the role's synonyms; a role with no matching
header yields none.  No cross-role exclusivity exists: the same header can
be claimed by several roles (see the counterexample). -/
theorem claim6_amended (header keys : List String) :
    (pick header keys = none ↔
      ∀ h ∈ header, keys.any (fun k => strIncludes (lowerStr h) k) = false) ∧
    (∀ l1 h l2, header = l1 ++ h :: l2 →
      (∀ x ∈ l1, keys.any (fun k => strIncludes (lowerStr x) k) = false) →
      keys.any (fun k => strIncludes (lowerStr h) k) = true →
      pick header keys = some h) ∧
    (∀ h, pick header keys = some h →
      h ∈ header ∧ keys.any (fun k => strIncludes (lowerStr h) k) = true) := by
  refine ⟨?_, ?_, ?_⟩
  · rw [pick, List.find?_eq_none]
    constructor
    · intro hf x hx
      have := hf x hx
      simpa using this
    · intro hf x hx
      simp [hf x hx]
  · intro l1 h l2 hh hpre hm
    subst hh
    exact find_first_in_append _ l1 h l2 hpre hm
  · intro h hf
    simp only [pick] at hf
    refine ⟨List.mem_of_find?_eq_some hf, ?_⟩
    exact @List.find?_some String (fun x => keys.any fun k => strIncludes (lowerStr x) k) h
      header hf

/-- C6 counterexample: the header `"Amount"` is claimed by BOTH the
unit-price role and the grand-total role — there is no cross-role
exclusivity, refuting "a header may be claimed by only one role at a
time". -/
theorem claim6_counterexample :
    ¬ (∀ (header : List String) (h : String),
        pick header priceKeys = some h → pick header totalKeys ≠ some h) := by
  intro hcl
  exact hcl ["Amount"] "Amount" (by decide) (by decide)

/-- Witness for C6 (amended): the tax role claims the header `"Tax %"`. -/
theorem claim6_witness :
    ("Tax %" : String) ∈ (["Tax %"] : List String) ∧
    taxKeys.any (fun k => strIncludes (lowerStr "Tax %") k) = true :=
  (claim6_amended ["Tax %"] taxKeys).2.2 "Tax %" (by decide)

/-- C7: the adapter's candidate loop uses the first success, advances to the
next candidate on a model-not-found error, aborts to the empty fragment on
any other error class, and — being a total function into fragments — never
throws to its caller. -/
theorem claim7_adapter_fallback (svc : String → GenResult)
    (parse : String → RawFragment) (m : String) (rest : List String) :
    (∀ t, svc m = .ok t →
      extractWithGemini svc parse (m :: rest) = parse t) ∧
    (∀ msg, svc m = .err msg → notFoundMsg msg = true →
      extractWithGemini svc parse (m :: rest) = extractWithGemini svc parse rest) ∧
    (∀ msg, svc m = .err msg → notFoundMsg msg = false →
      extractWithGemini svc parse (m :: rest) = emptyFragment) := by
  refine ⟨?_, ?_, ?_⟩
  · intro t h
    simp [extractWithGemini, tryCandidates, h]
  · intro msg h hn
    simp [extractWithGemini, tryCandidates, h, hn]
  · intro msg h hn
    simp [extractWithGemini, tryCandidates, h, hn]

/-- Witness for C7: scenario E — first three candidates report "not found"
(here via the `404` error class), the fourth succeeds, and its response is
the one parsed, with no error surfacing. -/
theorem claim7_witness :
    extractWithGemini svcE parseE ["m1", "m2", "m3", "m4"] = parseE "T" := by
  have h1 := (claim7_adapter_fallback svcE parseE "m1" ["m2", "m3", "m4"]).2.1 "404"
    (by decide) (by decide)
  have h2 := (claim7_adapter_fallback svcE parseE "m2" ["m3", "m4"]).2.1 "404"
    (by decide) (by decide)
  have h3 := (claim7_adapter_fallback svcE parseE "m3" ["m4"]).2.1 "404"
    (by decide) (by decide)
  have h4 := (claim7_adapter_fallback svcE parseE "m4" []).1 "T" (by decide)
  rw [h1, h2, h3, h4]

/-- C8: the extract endpoint returns a 400 client error on an empty upload
batch — independently of the extraction pipeline, so no processing happens
and no entities are created — and reports a thrown internal fault as a 500
server error carrying the fault's message. -/
theorem claim8_endpoint_errors (files : List UploadFile)
    (run : List UploadFile → ExtractOutcome) :
    (files = [] → postExtract files run = .clientErr 400 "No files uploaded") ∧
    (∀ r, files ≠ [] → run files = .ok r → postExtract files run = .success r) ∧
    (∀ m, files ≠ [] → run files = .fault m →
      postExtract files run = .serverErr 500 (if m = "" then "Extraction failed" else m)) := by
  refine ⟨?_, ?_, ?_⟩
  · intro h
    subst h
    rfl
  · intro r hne hr
    rw [postExtract, if_neg (by simpa using hne), hr]
  · intro m hne hm
    rw [postExtract, if_neg (by simpa using hne), hm]

/-- Witness for C8: an empty batch yields the 400 response for every
pipeline, and a throwing pipeline yields the 500 response with its
message. -/
theorem claim8_witness :
    postExtract [] runE = .clientErr 400 "No files uploaded" ∧
    postExtract [⟨"a.pdf", "x"⟩] runE = .serverErr 500 "boom" := by
  refine ⟨(claim8_endpoint_errors [] runE).1 rfl, ?_⟩
  have h := (claim8_endpoint_errors [⟨"a.pdf", "x"⟩] runE).2.2 "boom" (by simp) rfl
  simpa using h

lemma lookup_mem {l : List (String × String)} {k v : String}
    (h : l.lookup k = some v) : (k, v) ∈ l := by
  obtain ⟨l1, l2, rfl, -⟩ := List.lookup_eq_some_iff.mp h
  simp

lemma mem_keys_lookup {l : List (String × String)} {k : String}
    (h : k ∈ l.map Prod.fst) : ∃ v, l.lookup k = some v := by
  have hs : (l.lookup k).isSome := by
    rw [List.lookup_isSome_iff]
    obtain ⟨a, ha, he⟩ := List.mem_map.mp h
    exact ⟨a, ha, by simp [he]⟩
  exact Option.isSome_iff_exists.mp hs

lemma addEntry_none (key : α → String) (pre : String) (mk : String → α → β)
    (st : Reg β) (r : α) (hk : key r = "") :
    (addEntry key pre mk st r).1 = none := by
  simp [addEntry, hk]

lemma addEntry_good (key : α → String) (pre : String) (mk : String → α → β)
    (idOf : β → String) (hid : ∀ id r, idOf (mk id r) = id)
    (st : Reg β) (r : α) (hg : RegGood idOf st) :
    RegGood idOf (addEntry key pre mk st r).2 := by
  by_cases h1 : key r = ""
  · have he : (addEntry key pre mk st r).2 = st := by simp [addEntry, h1]
    rw [he]; exact hg
  · by_cases h2 : key r ∈ st.idByName.map Prod.fst
    · have he : (addEntry key pre mk st r).2 = st := by simp [addEntry, h1, h2]
      rw [he]; exact hg
    · have he : (addEntry key pre mk st r).2
          = ⟨(key r, pre ++ toString (st.entries.length + 1)) :: st.idByName,
             st.entries ++ [mk (pre ++ toString (st.entries.length + 1)) r]⟩ := by
        simp [addEntry, h1, h2]
      rw [he]
      intro kv hkv
      rcases List.mem_cons.mp hkv with hh | ht
      · subst hh
        simp [hid]
      · have := hg kv ht
        simp only [List.map_append, List.mem_append]
        exact Or.inl this

lemma addEntry_entries_mono (key : α → String) (pre : String) (mk : String → α → β)
    (st : Reg β) (r : α) :
    ∃ t, (addEntry key pre mk st r).2.entries = st.entries ++ t := by
  by_cases h1 : key r = ""
  · exact ⟨[], by simp [addEntry, h1]⟩
  · by_cases h2 : key r ∈ st.idByName.map Prod.fst
    · exact ⟨[], by simp [addEntry, h1, h2]⟩
    · exact ⟨[mk (pre ++ toString (st.entries.length + 1)) r], by simp [addEntry, h1, h2]⟩

lemma addEntry_resolves (key : α → String) (pre : String) (mk : String → α → β)
    (idOf : β → String) (hid : ∀ id r, idOf (mk id r) = id)
    (st : Reg β) (r : α) (hg : RegGood idOf st) (hk : key r ≠ "") :
    ∃ i, (addEntry key pre mk st r).1 = some i ∧
      i ∈ (addEntry key pre mk st r).2.entries.map idOf := by
  by_cases h2 : key r ∈ st.idByName.map Prod.fst
  · obtain ⟨v, hv⟩ := mem_keys_lookup h2
    refine ⟨v, by simp [addEntry, hk, h2, hv], ?_⟩
    have hmem := hg (key r, v) (lookup_mem hv)
    have he : (addEntry key pre mk st r).2 = st := by simp [addEntry, hk, h2]
    rw [he]
    exact hmem
  · refine ⟨pre ++ toString (st.entries.length + 1), by simp [addEntry, hk, h2], ?_⟩
    have he : (addEntry key pre mk st r).2
        = ⟨(key r, pre ++ toString (st.entries.length + 1)) :: st.idByName,
           st.entries ++ [mk (pre ++ toString (st.entries.length + 1)) r]⟩ := by
      simp [addEntry, hk, h2]
    rw [he]
    simp [hid]

lemma regFold_good (key : α → String) (pre : String) (mk : String → α → β)
    (idOf : β → String) (hid : ∀ id r, idOf (mk id r) = id) :
    ∀ (l : List α) (st : Reg β), RegGood idOf st →
      RegGood idOf (regFold key pre mk st l) := by
  intro l
  induction l with
  | nil => intro st hg; exact hg
  | cons r rs ih =>
    intro st hg
    rw [regFold_cons]
    exact ih _ (addEntry_good key pre mk idOf hid st r hg)

lemma processItem_state_cases (ps : Reg Product) (it : RawItem) :
    (jsTruthyStr it.productId ≠ none → (processItem ps it).2 = ps) ∧
    (jsTruthyStr it.productId = none →
      (processItem ps it).2 = (addProduct ps (itemAsRawProduct it)).2) := by
  cases h : jsTruthyStr it.productId with
  | some pid =>
    refine ⟨fun _ => by unfold processItem; rw [h], fun hc => ?_⟩
    exact absurd hc (by simp)
  | none =>
    refine ⟨fun hc => ?_, fun _ => by unfold processItem; rw [h]⟩
    exact absurd rfl hc

lemma processItems_good : ∀ (its : List RawItem) (ps : Reg Product),
    RegGood Product.id ps →
    RegGood Product.id (processItems ps its).2 ∧
    (∃ t, (processItems ps its).2.entries = ps.entries ++ t) ∧
    (∀ q ∈ List.zip its (processItems ps its).1,
      jsTruthyStr q.1.productId = none → lowerStr (strOrEmpty q.1.productName) ≠ "" →
      ∃ i, q.2.productId = some i ∧
        i ∈ (processItems ps its).2.entries.map Product.id) := by
  intro its
  induction its with
  | nil =>
    intro ps hg
    exact ⟨hg, ⟨[], by simp [processItems]⟩, by simp [processItems]⟩
  | cons it rest ih =>
    intro ps hg
    have hhead_good : RegGood Product.id (processItem ps it).2 := by
      cases h : jsTruthyStr it.productId with
      | some pid =>
        rw [(processItem_state_cases ps it).1 (by simp [h])]
        exact hg
      | none =>
        rw [(processItem_state_cases ps it).2 h]
        exact addEntry_good prodKey "prod_" mkProductE Product.id (fun id r => rfl)
          ps (itemAsRawProduct it) hg
    have hhead_mono : ∃ t, (processItem ps it).2.entries = ps.entries ++ t := by
      cases h : jsTruthyStr it.productId with
      | some pid =>
        rw [(processItem_state_cases ps it).1 (by simp [h])]
        exact ⟨[], by simp⟩
      | none =>
        rw [(processItem_state_cases ps it).2 h]
        exact addEntry_entries_mono prodKey "prod_" mkProductE ps (itemAsRawProduct it)
    obtain ⟨hb_good, ⟨t2, hb_mono⟩, hb_items⟩ := ih (processItem ps it).2 hhead_good
    have hstate : (processItems ps (it :: rest)).2
        = (processItems (processItem ps it).2 rest).2 := rfl
    refine ⟨by rw [hstate]; exact hb_good, ?_, ?_⟩
    · obtain ⟨t1, h1⟩ := hhead_mono
      exact ⟨t1 ++ t2, by rw [hstate, hb_mono, h1, List.append_assoc]⟩
    · intro q hq hnone hkey
      have hq2 : q ∈ (it, (processItem ps it).1) ::
          List.zip rest (processItems (processItem ps it).2 rest).1 := hq
      rcases List.mem_cons.mp hq2 with hh | ht
      · subst hh
        have hpid : (processItem ps it).1.productId
            = (addProduct ps (itemAsRawProduct it)).1 := by
          simp [processItem, hnone]
        have hks : prodKey (itemAsRawProduct it) ≠ "" := hkey
        obtain ⟨i, hi1, hi2⟩ := addEntry_resolves prodKey "prod_" mkProductE Product.id
          (fun id r => rfl) ps (itemAsRawProduct it) hg hks
        refine ⟨i, by rw [hpid]; exact hi1, ?_⟩
        rw [hstate, hb_mono]
        rw [(processItem_state_cases ps it).2 hnone] at hb_mono ⊢
        simp only [List.map_append, List.mem_append]
        exact Or.inl (by
          have : (addProduct ps (itemAsRawProduct it)).2.entries.map Product.id
              = ((addEntry prodKey "prod_" mkProductE ps (itemAsRawProduct it)).2).entries.map
                  Product.id := rfl
          rw [this]
          exact hi2)
      · exact hb_items q ht hnone hkey

lemma processInvoices_good : ∀ (l : List RawInvoice) (ps : Reg Product)
    (cs : Reg Customer) (n : Nat),
    RegGood Product.id ps → RegGood Customer.id cs →
    RegGood Product.id (processInvoices ps cs n l).2.1 ∧
    RegGood Customer.id (processInvoices ps cs n l).2.2 ∧
    (∃ t, (processInvoices ps cs n l).2.1.entries = ps.entries ++ t) ∧
    (∃ t, (processInvoices ps cs n l).2.2.entries = cs.entries ++ t) ∧
    (∀ inv ∈ (processInvoices ps cs n l).1, inv.customerId ≠ "" →
      inv.customerId ∈ (processInvoices ps cs n l).2.2.entries.map Customer.id) ∧
    (∀ pr ∈ List.zip l (processInvoices ps cs n l).1,
      ∀ q ∈ List.zip pr.1.items pr.2.items,
        jsTruthyStr q.1.productId = none → lowerStr (strOrEmpty q.1.productName) ≠ "" →
        ∃ i, q.2.productId = some i ∧
          i ∈ (processInvoices ps cs n l).2.1.entries.map Product.id) := by
  intro l
  induction l with
  | nil =>
    intro ps cs n hgp hgc
    exact ⟨hgp, hgc, ⟨[], by simp [processInvoices]⟩, ⟨[], by simp [processInvoices]⟩,
           by simp [processInvoices], by simp [processInvoices]⟩
  | cons inv rest ih =>
    intro ps cs n hgp hgc
    have hcs1 : (processInvoice ps cs n inv).2.2 = (addCustomer cs (custRec inv)).2 := rfl
    have hps1 : (processInvoice ps cs n inv).2.1 = (processItems ps inv.items).2 := rfl
    obtain ⟨hpg, ⟨tp, hpm⟩, hitems⟩ := processItems_good inv.items ps hgp
    have hcg : RegGood Customer.id (processInvoice ps cs n inv).2.2 := by
      rw [hcs1]
      exact addEntry_good custKey "cust_" mkCustomerE Customer.id (fun id r => rfl)
        cs (custRec inv) hgc
    have hpg1 : RegGood Product.id (processInvoice ps cs n inv).2.1 := by
      rw [hps1]; exact hpg
    obtain ⟨hrg, hrc, ⟨t3, hm3⟩, ⟨t4, hm4⟩, hcust, hprod⟩ :=
      ih (processInvoice ps cs n inv).2.1 (processInvoice ps cs n inv).2.2 (n + 1) hpg1 hcg
    have hstate1 : (processInvoices ps cs n (inv :: rest)).2.1
        = (processInvoices (processInvoice ps cs n inv).2.1
            (processInvoice ps cs n inv).2.2 (n + 1) rest).2.1 := rfl
    have hstate2 : (processInvoices ps cs n (inv :: rest)).2.2
        = (processInvoices (processInvoice ps cs n inv).2.1
            (processInvoice ps cs n inv).2.2 (n + 1) rest).2.2 := rfl
    obtain ⟨t5, hm5⟩ := addEntry_entries_mono custKey "cust_" mkCustomerE cs (custRec inv)
    refine ⟨by rw [hstate1]; exact hrg, by rw [hstate2]; exact hrc, ?_, ?_, ?_, ?_⟩
    · refine ⟨tp ++ t3, ?_⟩
      rw [hstate1, hm3, hps1, hpm, List.append_assoc]
    · refine ⟨t5 ++ t4, ?_⟩
      have hm5a : (processInvoice ps cs n inv).2.2.entries = cs.entries ++ t5 := hm5
      rw [hstate2, hm4, hm5a, List.append_assoc]
    · intro i hi hne
      have hi2 : i ∈ (processInvoice ps cs n inv).1 ::
          (processInvoices (processInvoice ps cs n inv).2.1
            (processInvoice ps cs n inv).2.2 (n + 1) rest).1 := hi
      rcases List.mem_cons.mp hi2 with hh | ht
      · subst hh
        have hcid : (processInvoice ps cs n inv).1.customerId
            = strOrEmpty (addCustomer cs (custRec inv)).1 := rfl
        rw [hcid] at hne ⊢
        cases hca : (addCustomer cs (custRec inv)).1 with
        | none => rw [hca] at hne; exact absurd rfl hne
        | some i0 =>
          have hks : custKey (custRec inv) ≠ "" := by
            intro hk0
            have := addEntry_none custKey "cust_" mkCustomerE cs (custRec inv) hk0
            rw [show (addCustomer cs (custRec inv)).1
                = (addEntry custKey "cust_" mkCustomerE cs (custRec inv)).1 from rfl, this]
              at hca
            exact Option.noConfusion hca
          obtain ⟨i1, hi1, hi1m⟩ := addEntry_resolves custKey "cust_" mkCustomerE
            Customer.id (fun id r => rfl) cs (custRec inv) hgc hks
          have hi0 : i0 = i1 := by
            have : (addCustomer cs (custRec inv)).1 = some i1 := hi1
            rw [hca] at this
            exact Option.some.inj this
          have hsi : strOrEmpty (some i0) = i0 := rfl
          rw [hsi, hi0, hstate2, hm4]
          have hmm : i1 ∈ (processInvoice ps cs n inv).2.2.entries.map Customer.id := hi1m
          simp only [List.map_append, List.mem_append]
          exact Or.inl hmm
      · exact hcust i ht hne
    · intro pr hpr q hq hnone hkey
      have hpr2 : pr ∈ (inv, (processInvoice ps cs n inv).1) ::
          List.zip rest (processInvoices (processInvoice ps cs n inv).2.1
            (processInvoice ps cs n inv).2.2 (n + 1) rest).1 := hpr
      rcases List.mem_cons.mp hpr2 with hh | ht
      · subst hh
        have hq2 : q ∈ List.zip inv.items (processItems ps inv.items).1 := hq
        obtain ⟨i, hi1, hi2⟩ := hitems q hq2 hnone hkey
        refine ⟨i, hi1, ?_⟩
        rw [hstate1, hm3, hps1]
        simp only [List.map_append, List.mem_append]
        exact Or.inl hi2
      · exact hprod pr ht q hq hnone hkey

/-- C4 (amended): every non-empty `customerId` in a normalized invoice is
the id of an output customer, and every item `productId` that the
normalizer itself resolved (raw item with no truthy `productId` and a
non-empty product name) is the id of an output product.  (A raw-supplied
`productId` is passed through unchecked — see the counterexample.) -/
theorem claim4_amended (raw : RawFragment) :
    (∀ inv ∈ (normalize raw).invoices, inv.customerId ≠ "" →
      inv.customerId ∈ (normalize raw).customers.map Customer.id) ∧
    (∀ pr ∈ List.zip raw.invoices (normalize raw).invoices,
      ∀ q ∈ List.zip pr.1.items pr.2.items,
        jsTruthyStr q.1.productId = none → lowerStr (strOrEmpty q.1.productName) ≠ "" →
        ∃ i, q.2.productId = some i ∧ i ∈ (normalize raw).products.map Product.id) := by
  have hgp : RegGood Product.id (pFold ⟨[], []⟩ raw.products) :=
    regFold_good prodKey "prod_" mkProductE Product.id (fun id r => rfl)
      raw.products ⟨[], []⟩ (by intro kv hkv; simp at hkv)
  have hgc : RegGood Customer.id (cFold ⟨[], []⟩ raw.customers) :=
    regFold_good custKey "cust_" mkCustomerE Customer.id (fun id r => rfl)
      raw.customers ⟨[], []⟩ (by intro kv hkv; simp at hkv)
  obtain ⟨-, -, -, -, hcust, hprod⟩ :=
    processInvoices_good raw.invoices (pFold ⟨[], []⟩ raw.products)
      (cFold ⟨[], []⟩ raw.customers) 1 hgp hgc
  have hcands : (normalize raw).customers.map Customer.id
      = (processInvoices (pFold ⟨[], []⟩ raw.products)
          (cFold ⟨[], []⟩ raw.customers) 1 raw.invoices).2.2.entries.map Customer.id := by
    show ((processInvoices (pFold ⟨[], []⟩ raw.products)
        (cFold ⟨[], []⟩ raw.customers) 1 raw.invoices).2.2.entries.map
          (recomputeCustomer (normalize raw).invoices)).map Customer.id = _
    rw [List.map_map]
    exact List.map_congr_left (fun c _ => rfl)
  constructor
  · intro inv hinv hne
    rw [hcands]
    exact hcust inv hinv hne
  · intro pr hpr q hq hnone hkey
    exact hprod pr hpr q hq hnone hkey

/-- C4 counterexample: a raw item carrying `productId = "bogus"` is passed
through verbatim — the output item references `"bogus"` while the output
Products collection is empty, so the reference resolves to nothing. -/
theorem claim4_counterexample :
    (normalize fragC4).products = [] ∧
    (normalize fragC4).invoices.map (fun i => i.items.map InvoiceItem.productId)
      = [[some "bogus"]] := by decide

lemma normC4w_eval : normalize fragC4w = ⟨[prodC4w], [custC4w], [invC4w]⟩ := by
  have h1 : lowerStr "Ann" = "ann" := by decide
  have h2 : lowerStr "w" = "w" := by decide
  have e1 : (("ann" : String) = "") ↔ False := by decide
  have e2 : (("w" : String) = "") ↔ False := by decide
  have t1 : "cust_" ++ toString 1 = "cust_1" := by decide
  have t2 : "inv_" ++ toString 1 = "inv_1" := by decide
  have t0 : "prod_" ++ toString 1 = "prod_1" := by decide
  have t3 : (("cust_1" : String) == "") = false := by decide
  have t4 : (("cust_1" : String) == "cust_1") = true := by decide
  norm_num [normalize, processInvoices, processInvoice, processItems, processItem,
    addProduct, addCustomer, addEntry, mkProductE, mkCustomerE, prodKey, custKey,
    itemAsRawProduct, itemsSubtotal, itemsTax, jsOrNum, jsTruthyNum, jsTruthyStr,
    numOr0, strOrEmpty, recomputeCustomer, custTotal, List.lookup,
    h1, h2, e1, e2, t0, t1, t2, t3, t4, fragC4w, prodC4w, custC4w, invC4w]

/-- Witness for C4 (amended) at the concrete fragment `fragC4w`. -/
theorem claim4_witness :
    (invC4w.customerId ∈ (normalize fragC4w).customers.map Customer.id) ∧
    (∃ i, itemC4w.productId = some i ∧
      i ∈ (normalize fragC4w).products.map Product.id) :=
  ⟨(claim4_amended fragC4w).1 invC4w (by rw [normC4w_eval]; simp) (by decide),
   (claim4_amended fragC4w).2 (rawInvC4w, invC4w)
     (by rw [normC4w_eval]; simp [fragC4w, rawInvC4w])
     (rawItemC4w, itemC4w)
     (by simp [rawInvC4w, invC4w, rawItemC4w, itemC4w])
     (by decide) (by decide)⟩

end Swipe
